import Mathlib

/-!
Shallow embedding of the document ingestion pipeline of the
Collections-AI-Assistance repository (src/app/file_service.py and
src/app/text_extraction.py).

Python strings are modelled as `List Char` (`Str`); Python dicts with
string keys as association lists (`Dict`).  External collaborators
(the `secure_filename` library, the MIME sniffer `magic`, hashing,
`PyPDF2` page texts, `python-docx` paragraph texts, the csv sniffer and
reader, the audio metadata extractor, and the database session) are
modelled as explicit parameters carrying their outcome; all the logic of
the repository itself is translated directly from the source.
-/

/-- Python `str` modelled as a list of characters. -/
abbrev Str := List Char

/-- The newline separator used by `'\n'.join(...)`. -/
def nl : Str := ['\n']

/-- Python `sep.join(parts)`. -/
def pyJoin (sep : Str) : List Str → Str
  | [] => []
  | [x] => x
  | x :: xs => x ++ sep ++ pyJoin sep (xs)

/-- Model of `TextExtractor.max_text_length` (text_extraction.py line 15). -/
def max_text_length : Nat := 50000

/-- Model of `FileService.max_file_size` (file_service.py line 34): 50 MB. -/
def max_file_size : Nat := 50 * 1024 * 1024

/-- Values stored in a Python dict of the pipeline: strings, ints or None. -/
inductive PyVal where
  | str : Str → PyVal
  | int : Nat → PyVal
  | vnone : PyVal
deriving DecidableEq, Repr, Inhabited

/-- A Python dict with string keys, as an association list in key order. -/
abbrev Dict := List (Str × PyVal)

/-- Whether the dict has the given key. -/
def dictHasKey (m : Dict) (k : Str) : Bool :=
  m.any (fun p => p.1 = k)

/-- Dict lookup: value of the first entry with the given key. -/
def dictLookup (m : Dict) (k : Str) : Option PyVal :=
  match m with
  | [] => none
  | (k', v) :: rest => if k' = k then some v else dictLookup rest k

/-- Setting one key of a Python dict: overwrite in place, or append. -/
def dictInsert (m : Dict) (k : Str) (v : PyVal) : Dict :=
  if dictHasKey m k then
    m.map (fun p => if p.1 = k then (k, v) else p)
  else
    m ++ [(k, v)]

/-- Python `{**old, **new}`: every entry of `new` written over `old`. -/
def dictMerge (old new : Dict) : Dict :=
  new.foldl (fun m p => dictInsert m p.1 p.2) old

/-- Keys of a dict. -/
def dictKeys (m : Dict) : List Str := m.map (·.1)

-- Basic lemmas about pyJoin -----------------------------------------------

theorem pyJoin_append (sep : Str) (xs ys : List Str) (hxs : xs ≠ []) (hys : ys ≠ []) :
    pyJoin sep (xs ++ ys) = pyJoin sep xs ++ sep ++ pyJoin sep ys := by
  induction xs with
  | nil => exact absurd rfl hxs
  | cons x xs ih =>
    cases xs with
    | nil =>
      cases ys with
      | nil => exact absurd rfl hys
      | cons y ys => simp [pyJoin]
    | cons x' xs' =>
      have ih' := ih (by simp)
      rw [List.cons_append] at ih'
      simp only [List.cons_append, List.append_eq, pyJoin]
      rw [ih']
      simp [List.append_assoc]

/-- Joining fewer parts yields a prefix: `pyJoin sep acc` is a prefix of `pyJoin sep (acc ++ rest)`. -/
theorem pyJoin_pre (sep : Str) (acc rest : List Str) :
    pyJoin sep acc <+: pyJoin sep (acc ++ rest) := by
  cases hacc : acc with
  | nil => simp [pyJoin]
  | cons a as =>
    cases hrest : rest with
    | nil => simp
    | cons r rs =>
      rw [pyJoin_append sep (a :: as) (r :: rs) (by simp) (by simp)]
      exact ⟨sep ++ pyJoin sep (r :: rs), by simp [List.append_assoc]⟩

theorem take_of_pre {l u : Str} (h : l <+: u) {n : Nat} (hn : n ≤ l.length) :
    l.take n = u.take n := by
  obtain ⟨t, rfl⟩ := h
  rw [List.take_append_of_le_length hn]

-- Capped accumulation -------------------------------------------------------

/--
The accumulate-then-check loop shared (after skipping of empty items is
factored out) by the PDF, DOCX and CSV extractors: append each item to
`text_parts`, recompute `combined_text = '\n'.join(text_parts)`, and as
soon as its length exceeds `max_text_length` return the truncated prefix
`combined_text[:max_text_length]`; otherwise return the full join.
-/
def capLoop (acc : List Str) : List Str → Str
  | [] => pyJoin nl acc
  | x :: xs =>
    let acc2 := acc ++ [x]
    let combined := pyJoin nl acc2
    if max_text_length < combined.length then combined.take max_text_length
    else capLoop acc2 xs

/-- Python `s[:n] if len(s) > n else s`. -/
def pyTruncate (s : Str) (n : Nat) : Str :=
  if n < s.length then s.take n else s

theorem capLoop_eq (xs : List Str) : ∀ acc : List Str,
    (pyJoin nl acc).length ≤ max_text_length →
    capLoop acc xs = pyTruncate (pyJoin nl (acc ++ xs)) max_text_length := by
  induction xs with
  | nil =>
    intro acc hacc
    simp [capLoop, pyTruncate, Nat.not_lt.mpr hacc]
  | cons x xs ih =>
    intro acc hacc
    simp only [capLoop]
    by_cases hlen : max_text_length < (pyJoin nl (acc ++ [x])).length
    · simp only [hlen, if_pos]
      have hp : pyJoin nl (acc ++ [x]) <+: pyJoin nl ((acc ++ [x]) ++ xs) :=
        pyJoin_pre nl (acc ++ [x]) xs
      have hlen2 : max_text_length < (pyJoin nl ((acc ++ [x]) ++ xs)).length :=
        lt_of_lt_of_le hlen hp.length_le
      rw [take_of_pre hp (Nat.le_of_lt hlen)]
      rw [List.append_assoc, List.singleton_append] at hlen2 ⊢
      simp [pyTruncate, hlen2]
    · simp only [hlen, if_neg, if_false]
      have := ih (acc ++ [x]) (Nat.not_lt.mp hlen)
      rw [this, List.append_assoc, List.singleton_append]

-- The extractors (src/app/text_extraction.py) --------------------------------

/--
Model of `TextExtractor._extract_from_pdf` (text_extraction.py lines 37-56), with
the page texts delivered by the external `PyPDF2` reader passed in as a
list: append each non-empty page text, then check the running length
against the cap.  (The surrounding try/except that maps reader failures
to `None` is modelled at the `extract_text` level.)
-/
def extract_from_pdf_loop (acc : List Str) : List Str → Str
  | [] => pyJoin nl acc
  | p :: ps =>
    let acc2 := if p = [] then acc else acc ++ [p]
    let combined := pyJoin nl acc2
    if max_text_length < combined.length then combined.take max_text_length
    else extract_from_pdf_loop acc2 ps

def extract_from_pdf (pages : List Str) : Str :=
  extract_from_pdf_loop [] pages

/-- Python `s.strip()` whitespace set (the characters that can occur in a
single line here). -/
def isPySpace (c : Char) : Bool :=
  c = ' ' || c = '\t' || c = '\n' || c = '\r' || c = '\x0b' || c = '\x0c'

/-- Python `s.strip()`. -/
def pyStrip (s : Str) : Str :=
  ((s.dropWhile isPySpace).reverse.dropWhile isPySpace).reverse

/--
Model of `TextExtractor._extract_from_docx` (text_extraction.py lines 58-76), with
the paragraph texts delivered by the external `python-docx` library passed
in as a list: append each paragraph whose stripped text is non-empty
(the unstripped text is appended), then check the cap.
-/
def extract_from_docx_loop (acc : List Str) : List Str → Str
  | [] => pyJoin nl acc
  | p :: ps =>
    let acc2 := if pyStrip p = [] then acc else acc ++ [p]
    let combined := pyJoin nl acc2
    if max_text_length < combined.length then combined.take max_text_length
    else extract_from_docx_loop acc2 ps

def extract_from_docx (paragraphs : List Str) : Str :=
  extract_from_docx_loop [] paragraphs

/--
Model of `TextExtractor._extract_from_txt` (text_extraction.py lines 78-95) on the
decoded file content: `content[:max_text_length] if len(content) >
max_text_length else content`.
-/
def extract_from_txt (content : Str) : Str :=
  pyTruncate content max_text_length


/-- The cell separator `", "` used by `", ".join(row)` in the CSV extractor. -/
def commaSpace : Str := [',', ' ']

/-- The line built for one CSV row (text_extraction.py lines 111-117):
`"Headers: " + ", ".join(row)` for row 0, `"Row {n}: {cells}"` otherwise. -/
def csvLine (rowNum : Nat) (row : List Str) : Str :=
  if rowNum = 0 then "Headers: ".data ++ pyJoin commaSpace row
  else "Row ".data ++ Nat.toDigits 10 rowNum ++ ": ".data ++ pyJoin commaSpace row

/--
Model of `TextExtractor._extract_from_csv` (text_extraction.py lines 97-127), with
the rows delivered by the external `csv.reader` (parameterised over the
delimiter detected by `csv.Sniffer` from a 1024-character sample) passed
in as a list of cell lists: label and append each row, then check the cap.
Note the code joins cells with the fixed literal `", "`; the detected
delimiter is used only for parsing and does not appear in this function.
-/
def extract_from_csv_loop (acc : List Str) (rowNum : Nat) : List (List Str) → Str
  | [] => pyJoin nl acc
  | row :: rows =>
    let acc2 := acc ++ [csvLine rowNum row]
    let combined := pyJoin nl acc2
    if max_text_length < combined.length then combined.take max_text_length
    else extract_from_csv_loop acc2 (rowNum + 1) rows

def extract_from_csv (rows : List (List Str)) : Str :=
  extract_from_csv_loop [] 0 rows

-- Markdown cleanup (text_extraction.py lines 129-171) ------------------------

/-- The backtick character. -/
def btick : Char := '\x60'

/-- Python `s.startswith(pre)`. -/
def pyStartswith : Str → Str → Bool
  | [], _ => true
  | _ :: _, [] => false
  | p :: ps, c :: cs => p = c && pyStartswith ps cs

/-- Python `sub in s` for a substring test (`'**' in line`). -/
def isSubstr (pat : Str) : Str → Bool
  | [] => pat.isEmpty
  | c :: rest => pyStartswith pat (c :: rest) || isSubstr pat rest

/-- Python `line.replace('**', '')`: remove non-overlapping `**` pairs,
scanning left to right. -/
def replaceDoubleStar : Str → Str
  | [] => []
  | [c] => [c]
  | c :: c2 :: rest =>
    if c = '*' ∧ c2 = '*' then replaceDoubleStar rest
    else c :: replaceDoubleStar (c2 :: rest)

/--
One attempt of the regex `\[([^\]]+)\]\(([^)]+)\)` at the position right
after a `[`: the greedy `[^\]]+` takes everything up to the first `]`
(at least one character), then `](` must follow, then `[^)]+` up to the
first `)` (at least one character), then `)`.  Returns the link text and
the rest of the line after the match.
-/
def parseLink (l : Str) : Option (Str × Str) :=
  let t := l.takeWhile (fun c => c ≠ ']')
  match l.dropWhile (fun c => c ≠ ']') with
  | [] => none
  | _ :: r1 =>
    match r1 with
    | [] => none
    | c :: r2 =>
      if c = '(' ∧ t ≠ [] then
        let u := r2.takeWhile (fun c => c ≠ ')')
        match r2.dropWhile (fun c => c ≠ ')') with
        | [] => none
        | _ :: r4 => if u = [] then none else some (t, r4)
      else none

/-- The head of a non-empty `dropWhile` result fails the predicate. -/
theorem head_dropWhile_false {α : Type} (p : α → Bool) (l : List α) {a : α}
    {l' : List α} (h : l.dropWhile p = a :: l') : p a = false := by
  induction l with
  | nil => simp at h
  | cons x xs ih =>
    rw [List.dropWhile_cons] at h
    by_cases hx : p x
    · rw [if_pos hx] at h
      exact ih h
    · rw [if_neg hx] at h
      injection h with h1 h2
      subst h1
      simpa using hx

/-- Characterisation of a successful `parseLink`: the input decomposes as
`text ++ "](" ++ url ++ ")" ++ rest` with non-empty text (no `]`) and
non-empty url (no `)`). -/
theorem parseLink_some {l t after : Str} (h : parseLink l = some (t, after)) :
    ∃ u : Str, l = t ++ ']' :: '(' :: (u ++ ')' :: after) ∧ t ≠ [] ∧ u ≠ [] ∧
      (∀ c ∈ t, c ≠ ']') ∧ (∀ c ∈ u, c ≠ ')') := by
  unfold parseLink at h
  have e1 : l.takeWhile (fun c => c ≠ ']') ++ l.dropWhile (fun c => c ≠ ']') = l :=
    List.takeWhile_append_dropWhile _ _
  cases hdrop : l.dropWhile (fun c => c ≠ ']') with
  | nil => rw [hdrop] at h; simp at h
  | cons x r1 =>
    have hx : x = ']' := by
      have := head_dropWhile_false (fun c => decide (c ≠ ']')) l hdrop
      simpa using this
    rw [hdrop] at h
    cases r1 with
    | nil => simp at h
    | cons c r2 =>
      simp only at h
      split at h
      case isFalse => simp at h
      case isTrue hcond =>
        obtain ⟨hc, ht⟩ := hcond
        have e2 : r2.takeWhile (fun c => c ≠ ')') ++ r2.dropWhile (fun c => c ≠ ')') = r2 :=
          List.takeWhile_append_dropWhile _ _
        cases hdrop2 : r2.dropWhile (fun c => c ≠ ')') with
        | nil => rw [hdrop2] at h; simp at h
        | cons y r4 =>
          have hy : y = ')' := by
            have := head_dropWhile_false (fun c => decide (c ≠ ')')) r2 hdrop2
            simpa using this
          rw [hdrop2] at h
          simp only at h
          split at h
          case isTrue => simp at h
          case isFalse hu =>
            simp only [Option.some.injEq, Prod.mk.injEq] at h
            obtain ⟨hteq, hafter⟩ := h
            refine ⟨r2.takeWhile (fun c => c ≠ ')'), ?_, ?_, ?_, ?_, ?_⟩
            · rw [← e1, hdrop, hx, ← hteq, hc]
              simp only [List.cons_append, List.append_cancel_left_eq, List.cons.injEq,
                true_and]
              conv_lhs => rw [← e2]
              rw [hdrop2, hy, hafter]
            · rw [← hteq]; exact ht
            · exact hu
            · intro ch hch
              rw [← hteq] at hch
              have hmem := List.mem_takeWhile_imp hch
              simpa using hmem
            · intro ch hch
              have hmem := List.mem_takeWhile_imp hch
              simpa using hmem

theorem parseLink_length_lt {l t after : Str} (h : parseLink l = some (t, after)) :
    after.length < l.length := by
  obtain ⟨u, rfl, ht, hu, -, -⟩ := parseLink_some h
  simp only [List.length_append, List.length_cons]
  have : 1 ≤ t.length := List.length_pos.mpr ht
  omega

/--
Model of `re.sub(r'\[([^\]]+)\]\([^)]+\)', r'\1', line)` (text_extraction.py line
166): scan left to right; a match can only start at a `[`; on a match,
emit the link text and continue after the match, else emit the character.
-/
def linkSub : Str → Str
  | [] => []
  | c :: rest =>
    if c = '[' then
      match _h : parseLink rest with
      | some (t, after) => t ++ linkSub after
      | none => c :: linkSub rest
    else c :: linkSub rest
termination_by l => l.length
decreasing_by
  · have := parseLink_length_lt _h
    simp only [List.length_cons]
    omega
  · simp
  · simp

/--
The per-line cleanup of `TextExtractor._clean_markdown` (text_extraction.py
lines 148-169): the first matching rule applies; fence lines (starting
with three backticks) are dropped (`none`), all other lines are kept,
transformed.  Python's `x in line` membership tests are modelled as list
membership.
-/
def cleanLineOpt (line : Str) : Option Str :=
  if pyStartswith ['#'] line then
    some (pyStrip (line.dropWhile (fun c => c = '#')))
  else if pyStartswith "```".data line then none
  else if btick ∈ line then some (line.filter (fun c => c ≠ btick))
  else if isSubstr ['*', '*'] line = true ∨ '*' ∈ line then
    some ((replaceDoubleStar line).filter (fun c => c ≠ '*'))
  else if '[' ∈ line ∧ ']' ∈ line then some (linkSub line)
  else some line

/-- Python `content.split('\n')`. -/
def splitNl : Str → List Str
  | [] => [[]]
  | c :: rest =>
    if c = '\n' then [] :: splitNl rest
    else
      match splitNl rest with
      | s :: ss => (c :: s) :: ss
      | [] => [[c]]

/-- Model of `TextExtractor._clean_markdown` (text_extraction.py lines 143-171):
split into lines, clean each line (dropping fence lines), rejoin. -/
def clean_markdown (content : Str) : Str :=
  pyJoin nl ((splitNl content).filterMap cleanLineOpt)

/-- Model of `TextExtractor._extract_from_markdown` (text_extraction.py lines
129-141): clean, then apply the length cap. -/
def extract_from_markdown (content : Str) : Str :=
  pyTruncate (clean_markdown content) max_text_length

-- Unbounded (cap-free) extractions and the cap theorems ----------------------

/-- What the PDF extractor would produce with no cap: the newline-join of
the non-empty page texts. -/
def pdfUnbounded (pages : List Str) : Str :=
  pyJoin nl (pages.filter (fun p => p ≠ []))

/-- What the DOCX extractor would produce with no cap: the newline-join of
the paragraphs whose stripped text is non-empty. -/
def docxUnbounded (paragraphs : List Str) : Str :=
  pyJoin nl (paragraphs.filter (fun p => pyStrip p ≠ []))

/-- The labelled lines the CSV extractor builds, starting at a row number. -/
def csvLines (rowNum : Nat) : List (List Str) → List Str
  | [] => []
  | row :: rows => csvLine rowNum row :: csvLines (rowNum + 1) rows

/-- What the CSV extractor would produce with no cap. -/
def csvUnbounded (rows : List (List Str)) : Str :=
  pyJoin nl (csvLines 0 rows)

theorem extract_from_pdf_loop_eq (ps : List Str) : ∀ acc : List Str,
    (pyJoin nl acc).length ≤ max_text_length →
    extract_from_pdf_loop acc ps = capLoop acc (ps.filter (fun p => p ≠ [])) := by
  induction ps with
  | nil => intro acc hacc; simp [extract_from_pdf_loop, capLoop]
  | cons p ps ih =>
    intro acc hacc
    by_cases hp : p = []
    · subst hp
      have h1 : extract_from_pdf_loop acc ([] :: ps) = extract_from_pdf_loop acc ps := by
        simp [extract_from_pdf_loop, Nat.not_lt.mpr hacc]
      have h2 : List.filter (fun p => decide (p ≠ [])) ([] :: ps) =
          List.filter (fun p => decide (p ≠ [])) ps := by
        simp
      rw [h1, h2]
      exact ih acc hacc
    · have h1 : extract_from_pdf_loop acc (p :: ps) =
          if max_text_length < (pyJoin nl (acc ++ [p])).length then
            (pyJoin nl (acc ++ [p])).take max_text_length
          else extract_from_pdf_loop (acc ++ [p]) ps := by
        simp [extract_from_pdf_loop, hp]
      have h2 : List.filter (fun p => decide (p ≠ [])) (p :: ps) =
          p :: List.filter (fun p => decide (p ≠ [])) ps := by
        simp [hp]
      rw [h1, h2]
      simp only [capLoop]
      by_cases hlen : max_text_length < (pyJoin nl (acc ++ [p])).length
      · rw [if_pos hlen, if_pos hlen]
      · rw [if_neg hlen, if_neg hlen]
        exact ih (acc ++ [p]) (Nat.not_lt.mp hlen)

theorem extract_from_docx_loop_eq (ps : List Str) : ∀ acc : List Str,
    (pyJoin nl acc).length ≤ max_text_length →
    extract_from_docx_loop acc ps = capLoop acc (ps.filter (fun p => pyStrip p ≠ [])) := by
  induction ps with
  | nil => intro acc hacc; simp [extract_from_docx_loop, capLoop]
  | cons p ps ih =>
    intro acc hacc
    by_cases hp : pyStrip p = []
    · have h1 : extract_from_docx_loop acc (p :: ps) = extract_from_docx_loop acc ps := by
        simp [extract_from_docx_loop, hp, Nat.not_lt.mpr hacc]
      have h2 : List.filter (fun p => decide (pyStrip p ≠ [])) (p :: ps) =
          List.filter (fun p => decide (pyStrip p ≠ [])) ps := by
        simp [hp]
      rw [h1, h2]
      exact ih acc hacc
    · have h1 : extract_from_docx_loop acc (p :: ps) =
          if max_text_length < (pyJoin nl (acc ++ [p])).length then
            (pyJoin nl (acc ++ [p])).take max_text_length
          else extract_from_docx_loop (acc ++ [p]) ps := by
        simp [extract_from_docx_loop, hp]
      have h2 : List.filter (fun p => decide (pyStrip p ≠ [])) (p :: ps) =
          p :: List.filter (fun p => decide (pyStrip p ≠ [])) ps := by
        simp [hp]
      rw [h1, h2]
      simp only [capLoop]
      by_cases hlen : max_text_length < (pyJoin nl (acc ++ [p])).length
      · rw [if_pos hlen, if_pos hlen]
      · rw [if_neg hlen, if_neg hlen]
        exact ih (acc ++ [p]) (Nat.not_lt.mp hlen)

theorem extract_from_csv_loop_eq (rows : List (List Str)) : ∀ (acc : List Str) (n : Nat),
    extract_from_csv_loop acc n rows = capLoop acc (csvLines n rows) := by
  induction rows with
  | nil => intro acc n; simp [extract_from_csv_loop, csvLines, capLoop]
  | cons row rows ih =>
    intro acc n
    simp only [extract_from_csv_loop, csvLines, capLoop]
    by_cases hlen : max_text_length < (pyJoin nl (acc ++ [csvLine n row])).length
    · simp [hlen]
    · simp only [hlen, if_false, if_neg]
      exact ih (acc ++ [csvLine n row]) (n + 1)

theorem extract_from_pdf_eq (pages : List Str) :
    extract_from_pdf pages = pyTruncate (pdfUnbounded pages) max_text_length := by
  unfold extract_from_pdf pdfUnbounded
  rw [extract_from_pdf_loop_eq pages [] (by simp [pyJoin]),
    capLoop_eq _ [] (by simp [pyJoin])]
  simp

theorem extract_from_docx_eq (paragraphs : List Str) :
    extract_from_docx paragraphs = pyTruncate (docxUnbounded paragraphs) max_text_length := by
  unfold extract_from_docx docxUnbounded
  rw [extract_from_docx_loop_eq paragraphs [] (by simp [pyJoin]),
    capLoop_eq _ [] (by simp [pyJoin])]
  simp

theorem extract_from_csv_eq (rows : List (List Str)) :
    extract_from_csv rows = pyTruncate (csvUnbounded rows) max_text_length := by
  unfold extract_from_csv csvUnbounded
  rw [extract_from_csv_loop_eq rows [] 0, capLoop_eq _ [] (by simp [pyJoin])]
  simp

theorem pyTruncate_spec (s : Str) (n : Nat) :
    (n < s.length → (pyTruncate s n).length = n ∧ pyTruncate s n <+: s) ∧
    (s.length ≤ n → pyTruncate s n = s) := by
  constructor
  · intro h
    rw [pyTruncate, if_pos h]
    exact ⟨by simp [List.length_take, Nat.min_eq_left (Nat.le_of_lt h)],
      List.take_prefix n s⟩
  · intro h
    rw [pyTruncate, if_neg (Nat.not_lt.mpr h)]

/-- C2: for every input whose unbounded extracted content would exceed
50,000 characters, every extractor (PDF, DOCX, plain text, CSV, Markdown)
returns a string of length exactly 50,000 that is a prefix of the
unbounded extraction; for inputs at or under the cap the full extraction
is returned unchanged. -/
theorem claim_c2_extraction_cap :
    (∀ pages : List Str,
      (max_text_length < (pdfUnbounded pages).length →
        (extract_from_pdf pages).length = max_text_length ∧
        extract_from_pdf pages <+: pdfUnbounded pages) ∧
      ((pdfUnbounded pages).length ≤ max_text_length →
        extract_from_pdf pages = pdfUnbounded pages)) ∧
    (∀ paragraphs : List Str,
      (max_text_length < (docxUnbounded paragraphs).length →
        (extract_from_docx paragraphs).length = max_text_length ∧
        extract_from_docx paragraphs <+: docxUnbounded paragraphs) ∧
      ((docxUnbounded paragraphs).length ≤ max_text_length →
        extract_from_docx paragraphs = docxUnbounded paragraphs)) ∧
    (∀ content : Str,
      (max_text_length < content.length →
        (extract_from_txt content).length = max_text_length ∧
        extract_from_txt content <+: content) ∧
      (content.length ≤ max_text_length → extract_from_txt content = content)) ∧
    (∀ rows : List (List Str),
      (max_text_length < (csvUnbounded rows).length →
        (extract_from_csv rows).length = max_text_length ∧
        extract_from_csv rows <+: csvUnbounded rows) ∧
      ((csvUnbounded rows).length ≤ max_text_length →
        extract_from_csv rows = csvUnbounded rows)) ∧
    (∀ content : Str,
      (max_text_length < (clean_markdown content).length →
        (extract_from_markdown content).length = max_text_length ∧
        extract_from_markdown content <+: clean_markdown content) ∧
      ((clean_markdown content).length ≤ max_text_length →
        extract_from_markdown content = clean_markdown content)) := by
  refine ⟨fun pages => ?_, fun paragraphs => ?_, fun content => ?_,
    fun rows => ?_, fun content => ?_⟩
  · rw [extract_from_pdf_eq]
    exact pyTruncate_spec _ _
  · rw [extract_from_docx_eq]
    exact pyTruncate_spec _ _
  · rw [extract_from_txt]
    exact pyTruncate_spec _ _
  · rw [extract_from_csv_eq]
    exact pyTruncate_spec _ _
  · rw [extract_from_markdown]
    exact pyTruncate_spec _ _

/-- Witness for C2 at concrete inputs: a 60,000-character plain-text file
is cut to exactly 50,000 characters, and a two-character one is returned
unchanged. -/
theorem claim_c2_extraction_cap_witness :
    (extract_from_txt (List.replicate 60000 'a')).length = 50000 ∧
    extract_from_txt ['h', 'i'] = ['h', 'i'] := by
  have h := claim_c2_extraction_cap.2.2.1
  constructor
  · have hlen : max_text_length < (List.replicate 60000 'a').length := by
      rw [List.length_replicate]
      norm_num [max_text_length]
    have h1 := ((h (List.replicate 60000 'a')).1 hlen).1
    exact h1.trans rfl
  · exact (h ['h', 'i']).2 (by decide)

-- The file service (src/app/file_service.py) ---------------------------------

/-- A `fastapi.HTTPException`: status code and detail message. -/
structure HTTPError where
  status : Nat
  detail : Str
deriving DecidableEq, Repr

/--
The persisted `File` record.  The `File` class itself is imported by
file_service.py from `.models` but not defined under src; its fields are
taken from the constructor call in `FileService.upload_file`
(file_service.py lines 140-152) and §3 of the design (the spec's
FileRecord), restricted to what the pipeline reads or writes.
-/
structure FileRecord where
  filename : Str
  original_filename : Str
  file_path : Str
  file_size : Nat
  mime_type : Str
  file_type : Str
  uploaded_by : Str
  metadata : Dict
  processing_status : Str
  extracted_text : Option Str
deriving DecidableEq, Repr

/-- Model of `FileService.allowed_extensions` (file_service.py lines 27-32), in
dict insertion order. -/
def allowed_extensions : List (Str × List Str) :=
  [("document".data, [".pdf".data, ".docx".data, ".txt".data, ".csv".data, ".md".data]),
   ("audio".data, [".mp3".data, ".wav".data, ".m4a".data]),
   ("image".data, [".jpg".data, ".jpeg".data, ".png".data, ".gif".data]),
   ("other".data, [".zip".data, ".json".data, ".xml".data])]

/-- Python `s.lower()`. -/
def pyLower (s : Str) : Str := s.map Char.toLower

/-- The final path component (after the last `/`). -/
def lastComponent (s : Str) : Str :=
  (s.reverse.takeWhile (fun c => c ≠ '/')).reverse

/-- Model of `pathlib.Path(s).suffix`: the extension of the final component, i.e.
`name[i:]` for the last `.` at index `i` with `0 < i < len(name) - 1`,
else the empty string. -/
def pathSuffix (s : Str) : Str :=
  let name := lastComponent s
  let afterDot := name.reverse.takeWhile (fun c => c ≠ '.')
  if afterDot.length = name.length then []
  else
    let i := name.length - afterDot.length - 1
    if 0 < i ∧ i < name.length - 1 then name.drop i else []

/-- Model of `FileService.get_file_type` (file_service.py lines 36-42): first
category whose extension list contains the lower-cased suffix, else
`'other'`. -/
def get_file_type (filename : Str) : Str :=
  let ext := pyLower (pathSuffix filename)
  match allowed_extensions.find? (fun p => decide (ext ∈ p.2)) with
  | some p => p.1
  | none => "other".data

/-- The flat allow-list built in `validate_file` (lines 65-67). -/
def all_allowed : List Str :=
  (allowed_extensions.map (·.2)).flatten

/-- The result dict of `validate_file` (lines 75-79). -/
structure ValidationResult where
  secure_filename : Str
  file_type : Str
  extension : Str
deriving DecidableEq, Repr

def errNoFilename : HTTPError := ⟨400, "No filename provided".data⟩

def errTooLarge : HTTPError :=
  ⟨413, "File too large. Maximum size is ".data ++
    Nat.toDigits 10 (max_file_size / (1024 * 1024)) ++ "MB".data⟩

def errInvalidFilename : HTTPError := ⟨400, "Invalid filename".data⟩

def errUnsupportedType : HTTPError :=
  ⟨415, "File type not allowed. Supported: ".data ++ pyJoin commaSpace all_allowed⟩

/-- Python `file.size and file.size > self.max_file_size` (line 50):
`None` and `0` are falsy, so only a truthy declared size is ever compared
with the maximum. -/
def sizeTooLarge (size : Option Nat) : Bool :=
  match size with
  | none => false
  | some n => decide (n ≠ 0) && decide (max_file_size < n)

/--
Model of `FileService.validate_file` (file_service.py lines 44-79).  The external
`secure_filename` sanitiser is passed in as a function.  The argument
`filename` is `file.filename` with Python's falsy values (`None` and
`""`) both modelled as `[]`; `size` is `file.size` (`none` = `None`).
The content of the upload is not an argument: validation never reads it.
-/
def validate_file (secure : Str → Str) (filename : Str) (size : Option Nat) :
    Except HTTPError ValidationResult :=
  if filename = [] then .error errNoFilename
  else if sizeTooLarge size then .error errTooLarge
  else
    let secure_name := secure filename
    if secure_name = [] then .error errInvalidFilename
    else
      let file_type := get_file_type secure_name
      let ext := pyLower (pathSuffix secure_name)
      if ext ∉ all_allowed then .error errUnsupportedType
      else .ok ⟨secure_name, file_type, ext⟩

/-- The dict returned by `get_file_metadata`. -/
structure FileMeta where
  mime_type : Str
  file_size : Nat
  hash : Option Str
  error : Option Str
deriving DecidableEq, Repr

/--
Model of `FileService.get_file_metadata` (file_service.py lines 92-109).  The
external MIME sniffer (`magic.from_file`) and the content digest
(`self._calculate_file_hash`) are passed in as `Except` values whose
`.error` case models the call raising.  Both calls sit inside the same
`try`, so a failure of either one lands in the `except` branch, which
returns the generic binary MIME type, the on-disk size, `hash: None` and
the error description — it does not re-raise.  (`os.path.getsize` is
modelled as returning the stored size: the blob was written just
before.)
-/
def get_file_metadata (mime digest : Except Str Str) (size : Nat) : FileMeta :=
  match mime with
  | .error e => ⟨"application/octet-stream".data, size, none, some e⟩
  | .ok m =>
    match digest with
    | .error e => ⟨"application/octet-stream".data, size, none, some e⟩
    | .ok h => ⟨m, size, some h, none⟩

/-- The dict literal built by `get_file_metadata` (lines 98-102 resp.
104-109), as stored into the record's `metadata` field. -/
def metaDict (m : FileMeta) : Dict :=
  [("mime_type".data, .str m.mime_type),
   ("file_size".data, .int m.file_size),
   ("hash".data, match m.hash with | some h => .str h | none => .vnone)] ++
  (match m.error with | some e => [("error".data, .str e)] | none => [])

def statusPending : Str := "pending".data
def statusProcessing : Str := "processing".data
def statusCompleted : Str := "completed".data
def statusFailed : Str := "failed".data

/--
Model of `FileService.process_file` (file_service.py lines 169-199).  The outcome
of the document extraction call and of the audio metadata call are passed
in as `Except` values (`.error e` models the call raising `e`; note that
`TextExtractor.extract_text` catches its own internal errors and returns
`None`, text_extraction.py lines 17-35, so a successful call yields an
`Option Str`).  Returns the updated record together with the list of
processing statuses committed to the database, in order.  Every raise
inside the `try` lands in the `except` branch (lines 193-199), which
marks the record `failed` and merges the error description into its
metadata — it does not re-raise.
-/
def process_file (rec : FileRecord) (docOutcome : Except Str (Option Str))
    (audioOutcome : Except Str Dict) : FileRecord × List Str :=
  let rec1 := { rec with processing_status := statusProcessing }
  let step : Except Str (FileRecord × Option Str) :=
    if rec1.file_type = "document".data then
      match docOutcome with
      | .error e => .error e
      | .ok t => .ok (rec1, t)
    else if rec1.file_type = "audio".data then
      match audioOutcome with
      | .error e => .error e
      | .ok m => .ok ({ rec1 with metadata := dictMerge rec1.metadata m }, none)
    else .ok (rec1, none)
  match step with
  | .ok (rec2, extracted) =>
    let rec3 :=
      match extracted with
      | some s => if s = [] then rec2 else { rec2 with extracted_text := some s }
      | none => rec2
    ({ rec3 with processing_status := statusCompleted },
      [statusProcessing, statusCompleted])
  | .error e =>
    ({ rec1 with
        processing_status := statusFailed,
        metadata := dictMerge rec1.metadata [("processing_error".data, .str e)] },
      [statusProcessing, statusFailed])

/-- The blob store (paths of files on disk under the upload dir) and the
record store. -/
structure Store where
  blobs : List Str
  records : List FileRecord
deriving DecidableEq, Repr

/-- The external outcomes one upload run depends on. -/
structure UploadEnv where
  secure : Str → Str
  fresh_path : Str
  mime : Except Str Str
  digest : Except Str Str
  stored_size : Nat
  docOutcome : Except Str (Option Str)
  audioOutcome : Except Str Dict

/-- The `File(...)` constructor call of `upload_file` (file_service.py
lines 140-152): the record as created, before processing. -/
def mkRecord (env : UploadEnv) (filename uploaded_by : Str)
    (v : ValidationResult) : FileRecord :=
  let meta := get_file_metadata env.mime env.digest env.stored_size
  { filename := v.secure_filename
    original_filename := filename
    file_path := env.fresh_path
    file_size := meta.file_size
    mime_type := meta.mime_type
    file_type := v.file_type
    uploaded_by := uploaded_by
    metadata := metaDict meta
    processing_status := statusPending
    extracted_text := none }

/--
Model of `FileService.upload_file` (file_service.py lines 119-167): validate (any
validation error propagates before anything is written), save the blob at
a fresh path, compute the metadata dict, create and commit the record
with status `pending`, then run `process_file` on it in place and return
it.  `get_file_metadata` and `process_file` are total (each catches its
own errors), so the `except` branch of `upload_file` (lines 163-167,
which removes the blob and re-raises a 500) is reachable only through
failures of the record store itself, modelled here as always succeeding.
-/
def upload_file (env : UploadEnv) (filename : Str) (size : Option Nat)
    (uploaded_by : Str) (st : Store) : Except HTTPError FileRecord × Store :=
  match validate_file env.secure filename size with
  | .error e => (.error e, st)
  | .ok v =>
    let st1 : Store := { st with blobs := st.blobs ++ [env.fresh_path] }
    let rec0 : FileRecord := mkRecord env filename uploaded_by v
    let st2 : Store := { st1 with records := st1.records ++ [rec0] }
    let processed := process_file rec0 env.docOutcome env.audioOutcome
    let st3 : Store := { st2 with records := st1.records ++ [processed.1] }
    (.ok processed.1, st3)

/--
Model of `FileService.cleanup_orphaned_files` (file_service.py lines 245-262):
delete every stored blob whose path is referenced by no record and return
the count of orphans.  Per-file deletion failures are swallowed
(`except OSError: pass`) but still counted; deletion itself is modelled
as succeeding.
-/
def cleanup_orphaned_files (st : Store) : Store × Nat :=
  let db_files := st.records.map (·.file_path)
  let orphaned := st.blobs.filter (fun p => decide (p ∉ db_files))
  ({ st with blobs := st.blobs.filter (fun p => decide (p ∈ db_files)) },
    orphaned.length)

-- Dict lemmas ----------------------------------------------------------------

theorem dictLookup_map_write_ne (rest : Dict) (k' k : Str) (v : PyVal) (h : k' ≠ k) :
    dictLookup (rest.map (fun p => if p.1 = k' then (k', v) else p)) k =
      dictLookup rest k := by
  induction rest with
  | nil => rfl
  | cons a m ih =>
    obtain ⟨ka, va⟩ := a
    rw [List.map_cons]
    dsimp only
    by_cases ha : ka = k'
    · rw [if_pos ha, dictLookup, dictLookup, if_neg h,
        if_neg (show ¬ ka = k by rw [ha]; exact h)]
      exact ih
    · rw [if_neg ha, dictLookup, dictLookup]
      by_cases hak : ka = k
      · rw [if_pos hak, if_pos hak]
      · rw [if_neg hak, if_neg hak]
        exact ih

theorem dictLookup_map_write_self (rest : Dict) (k : Str) (v : PyVal)
    (hk : dictHasKey rest k = true) :
    dictLookup (rest.map (fun p => if p.1 = k then (k, v) else p)) k = some v := by
  induction rest with
  | nil => simp [dictHasKey] at hk
  | cons a m ih =>
    obtain ⟨ka, va⟩ := a
    rw [List.map_cons]
    dsimp only
    by_cases ha : ka = k
    · rw [if_pos ha, dictLookup, if_pos rfl]
    · rw [if_neg ha, dictLookup, if_neg ha]
      apply ih
      revert hk
      simp [dictHasKey, ha]

theorem dictLookup_append_ne (m : Dict) (k' k : Str) (v : PyVal) (h : k' ≠ k) :
    dictLookup (m ++ [(k', v)]) k = dictLookup m k := by
  induction m with
  | nil => simp [dictLookup, h]
  | cons a rest ih =>
    obtain ⟨ka, va⟩ := a
    rw [List.cons_append, dictLookup, dictLookup]
    by_cases hak : ka = k
    · rw [if_pos hak, if_pos hak]
    · rw [if_neg hak, if_neg hak]
      exact ih

theorem dictLookup_append_self (m : Dict) (k : Str) (v : PyVal)
    (hk : dictHasKey m k = false) :
    dictLookup (m ++ [(k, v)]) k = some v := by
  induction m with
  | nil => rw [List.nil_append, dictLookup, if_pos rfl]
  | cons a rest ih =>
    obtain ⟨ka, va⟩ := a
    have ha : ¬ ka = k := by
      intro hcontra
      simp [dictHasKey, hcontra] at hk
    rw [List.cons_append, dictLookup, if_neg ha]
    apply ih
    revert hk
    simp [dictHasKey, ha]

theorem dictInsert_lookup_ne (m : Dict) (k' k : Str) (v : PyVal) (h : k' ≠ k) :
    dictLookup (dictInsert m k' v) k = dictLookup m k := by
  unfold dictInsert
  by_cases hk : dictHasKey m k' = true
  · rw [if_pos hk]
    exact dictLookup_map_write_ne m k' k v h
  · rw [if_neg hk]
    exact dictLookup_append_ne m k' k v h

theorem dictInsert_lookup_self (m : Dict) (k : Str) (v : PyVal) :
    dictLookup (dictInsert m k v) k = some v := by
  unfold dictInsert
  by_cases hk : dictHasKey m k = true
  · rw [if_pos hk]
    exact dictLookup_map_write_self m k v hk
  · rw [if_neg hk]
    exact dictLookup_append_self m k v (by simpa using hk)

theorem dictMerge_lookup (w : Dict) : ∀ (m : Dict) (k : Str),
    dictHasKey w k = false →
    dictLookup (dictMerge m w) k = dictLookup m k := by
  induction w with
  | nil => intro m k _; rfl
  | cons p w ih =>
    intro m k hk
    obtain ⟨kp, vp⟩ := p
    have h1 : kp ≠ k := by
      intro hcontra
      simp [dictHasKey, hcontra] at hk
    have h2 : dictHasKey w k = false := by
      revert hk
      simp [dictHasKey, h1]
    have hstep : dictMerge m ((kp, vp) :: w) = dictMerge (dictInsert m kp vp) w := rfl
    rw [hstep, ih (dictInsert m kp vp) k h2, dictInsert_lookup_ne m kp k vp h1]

-- process_file / upload_file characterisations -------------------------------

theorem process_file_metadata (rec : FileRecord) (dO : Except Str (Option Str))
    (aO : Except Str Dict) :
    (process_file rec dO aO).1.metadata =
      if rec.file_type = "document".data then
        match dO with
        | .error e => dictMerge rec.metadata [("processing_error".data, .str e)]
        | .ok _ => rec.metadata
      else if rec.file_type = "audio".data then
        match aO with
        | .error e => dictMerge rec.metadata [("processing_error".data, .str e)]
        | .ok m => dictMerge rec.metadata m
      else rec.metadata := by
  by_cases h1 : rec.file_type = "document".data
  · cases dO with
    | error e => simp [process_file, h1]
    | ok t =>
      cases t with
      | none => simp [process_file, h1]
      | some s => simp [process_file, h1, apply_ite]
  · by_cases h2 : rec.file_type = "audio".data
    · cases aO with
      | error e => simp [process_file, h1, h2]
      | ok ma => simp [process_file, h1, h2]
    · simp [process_file, h1, h2]

theorem process_file_frame (rec : FileRecord) (dO : Except Str (Option Str))
    (aO : Except Str Dict) :
    (process_file rec dO aO).1.filename = rec.filename ∧
    (process_file rec dO aO).1.original_filename = rec.original_filename ∧
    (process_file rec dO aO).1.file_path = rec.file_path ∧
    (process_file rec dO aO).1.file_size = rec.file_size ∧
    (process_file rec dO aO).1.mime_type = rec.mime_type ∧
    (process_file rec dO aO).1.file_type = rec.file_type ∧
    (process_file rec dO aO).1.uploaded_by = rec.uploaded_by := by
  by_cases h1 : rec.file_type = "document".data
  · cases dO with
    | error e => simp [process_file, h1]
    | ok t =>
      cases t with
      | none => simp [process_file, h1]
      | some s => simp [process_file, h1, apply_ite]
  · by_cases h2 : rec.file_type = "audio".data
    · cases aO with
      | error e => simp [process_file, h1, h2]
      | ok ma => simp [process_file, h1, h2]
    · simp [process_file, h1, h2]

theorem upload_file_ok (env : UploadEnv) (filename : Str) (size : Option Nat)
    (uploaded_by : Str) (st : Store) (v : ValidationResult)
    (hval : validate_file env.secure filename size = .ok v) :
    upload_file env filename size uploaded_by st =
      (.ok (process_file (mkRecord env filename uploaded_by v)
          env.docOutcome env.audioOutcome).1,
       { blobs := st.blobs ++ [env.fresh_path],
         records := st.records ++
           [(process_file (mkRecord env filename uploaded_by v)
              env.docOutcome env.audioOutcome).1] }) := by
  unfold upload_file
  rw [hval]

theorem upload_file_error (env : UploadEnv) (filename : Str) (size : Option Nat)
    (uploaded_by : Str) (st : Store) (e : HTTPError)
    (hval : validate_file env.secure filename size = .error e) :
    upload_file env filename size uploaded_by st = (.error e, st) := by
  unfold upload_file
  rw [hval]

-- Sample inputs for witnesses ------------------------------------------------

/-- A concrete environment for witness instantiations: an identity
sanitiser and successful external calls. -/
def sampleEnv : UploadEnv :=
  { secure := fun s => s
    fresh_path := "uploads/3f2e.txt".data
    mime := .ok "text/plain".data
    digest := .ok "abc123".data
    stored_size := 11
    docOutcome := .ok (some "hello world".data)
    audioOutcome := .ok [] }

-- C3 -------------------------------------------------------------------------

/-- C3: every upload rejected at intake — empty filename, declared size
over the 50 MiB maximum, name sanitised to empty, or extension absent
from every category's allow-list — fails with the corresponding typed
client error (status 400, 413, 400 resp. 415), and the store is returned
unchanged: no blob is written and no record is created. -/
theorem claim_c3_intake_rejections (env : UploadEnv) (filename : Str)
    (size : Option Nat) (uploaded_by : Str) (st : Store) :
    (filename = [] →
      upload_file env filename size uploaded_by st = (.error errNoFilename, st)) ∧
    (filename ≠ [] → sizeTooLarge size = true →
      upload_file env filename size uploaded_by st = (.error errTooLarge, st)) ∧
    (filename ≠ [] → sizeTooLarge size = false → env.secure filename = [] →
      upload_file env filename size uploaded_by st =
        (.error errInvalidFilename, st)) ∧
    (filename ≠ [] → sizeTooLarge size = false → env.secure filename ≠ [] →
      pyLower (pathSuffix (env.secure filename)) ∉ all_allowed →
      upload_file env filename size uploaded_by st =
        (.error errUnsupportedType, st)) ∧
    errNoFilename.status = 400 ∧ errTooLarge.status = 413 ∧
    errInvalidFilename.status = 400 ∧ errUnsupportedType.status = 415 := by
  refine ⟨?_, ?_, ?_, ?_, rfl, rfl, rfl, rfl⟩
  · intro h
    exact upload_file_error env filename size uploaded_by st _
      (by simp [validate_file, h])
  · intro h1 h2
    exact upload_file_error env filename size uploaded_by st _
      (by simp [validate_file, h1, h2])
  · intro h1 h2 h3
    exact upload_file_error env filename size uploaded_by st _
      (by simp [validate_file, h1, h2, h3])
  · intro h1 h2 h3 h4
    exact upload_file_error env filename size uploaded_by st _
      (by simp [validate_file, h1, h2, h3, h4])

/-- Witness for C3: an upload of `evil.exe` (unsupported extension), of an
oversized `big.txt`, of an empty filename and of a name sanitised to
empty are all rejected with the corresponding statuses and leave a
concrete store untouched. -/
theorem claim_c3_intake_rejections_witness :
    upload_file sampleEnv "evil.exe".data (some 10) "u1".data ⟨[], []⟩ =
      (.error errUnsupportedType, ⟨[], []⟩) ∧
    upload_file sampleEnv "big.txt".data (some 60000000) "u1".data ⟨[], []⟩ =
      (.error errTooLarge, ⟨[], []⟩) ∧
    upload_file sampleEnv [] (some 10) "u1".data ⟨[], []⟩ =
      (.error errNoFilename, ⟨[], []⟩) ∧
    errUnsupportedType.status = 415 ∧ errTooLarge.status = 413 := by
  refine ⟨?_, ?_, ?_, ?_, ?_⟩
  · exact (claim_c3_intake_rejections sampleEnv "evil.exe".data (some 10)
      "u1".data ⟨[], []⟩).2.2.2.1 (by decide) (by decide) (by decide) (by decide)
  · exact (claim_c3_intake_rejections sampleEnv "big.txt".data (some 60000000)
      "u1".data ⟨[], []⟩).2.1 (by decide) (by decide)
  · exact (claim_c3_intake_rejections sampleEnv [] (some 10)
      "u1".data ⟨[], []⟩).1 rfl
  · exact (claim_c3_intake_rejections sampleEnv [] none "u1".data ⟨[], []⟩).2.2.2.2.2.2.2
  · exact (claim_c3_intake_rejections sampleEnv [] none "u1".data ⟨[], []⟩).2.2.2.2.2.1

-- C10 ------------------------------------------------------------------------

/-- C10: when the declared size attribute is unset (`None`) or `0` — both
falsy in `file.size and file.size > self.max_file_size` — validation
performs no size check at all: the outcome is identical to a `None` size,
it is never the 413 "too large" error, and whenever the filename checks
pass the upload passes intake.  Validation never reads the content (its
arguments are only the filename and the declared size), so this holds for
a payload of any actual byte length. -/
theorem claim_c10_no_size_check (secure : Str → Str) (filename : Str)
    (size : Option Nat) (h : size = none ∨ size = some 0) :
    validate_file secure filename size = validate_file secure filename none ∧
    (∀ e : HTTPError, validate_file secure filename size = .error e →
      e.status ≠ 413) ∧
    (filename ≠ [] → secure filename ≠ [] →
      pyLower (pathSuffix (secure filename)) ∈ all_allowed →
      validate_file secure filename size =
        .ok ⟨secure filename, get_file_type (secure filename),
          pyLower (pathSuffix (secure filename))⟩) := by
  have hsz : sizeTooLarge size = false := by
    rcases h with rfl | rfl <;> rfl
  refine ⟨?_, ?_, ?_⟩
  · unfold validate_file
    rw [hsz]
    rfl
  · intro e he
    unfold validate_file at he
    rw [hsz] at he
    simp only [Bool.false_eq_true, if_false] at he
    by_cases h1 : filename = []
    · rw [if_pos h1] at he
      cases he
      decide
    · rw [if_neg h1] at he
      by_cases h2 : secure filename = []
      · rw [if_pos h2] at he
        cases he
        decide
      · rw [if_neg h2] at he
        by_cases h3 : pyLower (pathSuffix (secure filename)) ∉ all_allowed
        · rw [if_pos h3] at he
          cases he
          decide
        · rw [if_neg h3] at he
          cases he
  · intro h1 h2 h3
    unfold validate_file
    rw [hsz]
    simp only [Bool.false_eq_true, if_false]
    rw [if_neg h1, if_neg h2, if_neg (by simpa using h3)]

/-- Witness for C10: with an unset size, a `.txt` upload is not rejected
as too large (applying the claim at a concrete sanitiser, filename and
size). -/
theorem claim_c10_no_size_check_witness :
    validate_file (fun s => s) "a.txt".data none ≠ .error errTooLarge := by
  intro hcontra
  exact (claim_c10_no_size_check (fun s => s) "a.txt".data none
    (Or.inl rfl)).2.1 errTooLarge hcontra rfl

-- C1 -------------------------------------------------------------------------

theorem process_file_doc_error (rec : FileRecord) (e : Str) (aO : Except Str Dict)
    (hdoc : rec.file_type = "document".data) :
    process_file rec (.error e) aO =
      ({ rec with
          processing_status := statusFailed,
          metadata := dictMerge rec.metadata [("processing_error".data, .str e)] },
       [statusProcessing, statusFailed]) := by
  simp [process_file, hdoc]

/-- C1: for every uploaded document whose extraction call raises, the
record's processing status becomes `failed`, the error description is
merged into its metadata under the dedicated key `processing_error`,
`extractedText` is left unset, neither the record nor the stored blob is
rolled back (both are present in the final store), and the upload call
still returns the record successfully — the error does not propagate to
the caller of upload. -/
theorem claim_c1_extraction_error_local (env : UploadEnv) (filename : Str)
    (size : Option Nat) (uploaded_by : Str) (st : Store) (v : ValidationResult)
    (e : Str) (hval : validate_file env.secure filename size = .ok v)
    (hdoc : v.file_type = "document".data)
    (herr : env.docOutcome = .error e) :
    ∃ rec : FileRecord,
      upload_file env filename size uploaded_by st =
        (.ok rec,
         { blobs := st.blobs ++ [env.fresh_path],
           records := st.records ++ [rec] }) ∧
      rec.processing_status = statusFailed ∧
      dictLookup rec.metadata "processing_error".data = some (.str e) ∧
      rec.extracted_text = none ∧
      rec.file_path = env.fresh_path := by
  have hft : (mkRecord env filename uploaded_by v).file_type = "document".data := hdoc
  refine ⟨(process_file (mkRecord env filename uploaded_by v)
      env.docOutcome env.audioOutcome).1,
    upload_file_ok env filename size uploaded_by st v hval, ?_, ?_, ?_, ?_⟩
  · rw [herr, process_file_doc_error _ e env.audioOutcome hft]
  · rw [herr, process_file_doc_error _ e env.audioOutcome hft]
    show dictLookup (dictMerge (mkRecord env filename uploaded_by v).metadata
      [("processing_error".data, .str e)]) "processing_error".data = some (.str e)
    exact dictInsert_lookup_self _ _ _
  · rw [herr, process_file_doc_error _ e env.audioOutcome hft]
    exact rfl
  · rw [herr, process_file_doc_error _ e env.audioOutcome hft]
    exact rfl

/-- Concrete environment for the C1 witness: the document extraction call
raises. -/
def c1Env : UploadEnv :=
  { sampleEnv with
    fresh_path := "uploads/9a.pdf".data
    docOutcome := .error "PDF parse failure".data }

/-- Witness for C1: uploading `report.pdf` while extraction raises leaves
exactly one record, in `failed` state, and the blob in place. -/
theorem claim_c1_extraction_error_local_witness :
    (upload_file c1Env "report.pdf".data (some 5) "u1".data ⟨[], []⟩).2.records.map
      FileRecord.processing_status = [statusFailed] ∧
    (upload_file c1Env "report.pdf".data (some 5) "u1".data ⟨[], []⟩).2.blobs =
      ["uploads/9a.pdf".data] := by
  obtain ⟨rec, h1, h2, h3, h4, h5⟩ := claim_c1_extraction_error_local c1Env
    "report.pdf".data (some 5) "u1".data ⟨[], []⟩
    ⟨"report.pdf".data, "document".data, ".pdf".data⟩ "PDF parse failure".data
    rfl rfl rfl
  rw [h1]
  refine ⟨by simp [h2], ?_⟩
  rfl

-- C4 -------------------------------------------------------------------------

/-- Whether an upload result is a success. -/
def isOkResult : Except HTTPError FileRecord → Bool
  | .ok _ => true
  | .error _ => false

/-- Concrete environment refuting C4: the digest computation raises while
MIME sniffing succeeds. -/
def c4Env : UploadEnv :=
  { sampleEnv with digest := .error "disk read failed".data }

/--
Counterexample to C4 as stated: C4 claims that a digest failure aborts
the whole upload with no FileRecord persisted.  In the code both MIME
sniffing and hashing run inside the same `try` of `get_file_metadata`
(file_service.py lines 94-109) and its `except` returns a fallback dict
instead of re-raising, so the upload continues: here the digest raises
`disk read failed`, yet the upload returns `.ok` and exactly one record
is persisted.
-/
theorem claim_c4_counterexample :
    c4Env.digest = .error "disk read failed".data ∧
    isOkResult (upload_file c4Env "a.txt".data (some 3) "u1".data ⟨[], []⟩).1 = true ∧
    (upload_file c4Env "a.txt".data (some 3) "u1".data ⟨[], []⟩).2.records.length = 1 := by
  refine ⟨rfl, rfl, rfl⟩

/-- C4 (amended): neither identity-computation failure aborts the upload.
Both branches are stated and proved on their own hypotheses: (1) when
MIME sniffing succeeds and the digest computation raises, and (2) when
MIME sniffing itself raises (whatever the digest call would do).  In
both cases the upload continues — the record is persisted and returned —
its stored MIME type falls back to the generic binary type, the hash is
recorded as `None`, and the error text lands in the metadata dict under
`error`. -/
theorem claim_c4_amended_digest_degrades (env : UploadEnv) (filename : Str)
    (size : Option Nat) (uploaded_by : Str) (st : Store) (v : ValidationResult)
    (hval : validate_file env.secure filename size = .ok v) :
    (∀ m e : Str, env.mime = .ok m → env.digest = .error e →
      (∃ rec : FileRecord,
        upload_file env filename size uploaded_by st =
          (.ok rec, { blobs := st.blobs ++ [env.fresh_path],
                      records := st.records ++ [rec] }) ∧
        rec.mime_type = "application/octet-stream".data) ∧
      metaDict (get_file_metadata env.mime env.digest env.stored_size) =
        [("mime_type".data, .str "application/octet-stream".data),
         ("file_size".data, .int env.stored_size),
         ("hash".data, .vnone),
         ("error".data, .str e)]) ∧
    (∀ e' : Str, env.mime = .error e' →
      (∃ rec : FileRecord,
        upload_file env filename size uploaded_by st =
          (.ok rec, { blobs := st.blobs ++ [env.fresh_path],
                      records := st.records ++ [rec] }) ∧
        rec.mime_type = "application/octet-stream".data) ∧
      metaDict (get_file_metadata env.mime env.digest env.stored_size) =
        [("mime_type".data, .str "application/octet-stream".data),
         ("file_size".data, .int env.stored_size),
         ("hash".data, .vnone),
         ("error".data, .str e')]) := by
  have hrec : ∀ err : Str,
      get_file_metadata env.mime env.digest env.stored_size =
        ⟨"application/octet-stream".data, env.stored_size, none, some err⟩ →
      (∃ rec : FileRecord,
        upload_file env filename size uploaded_by st =
          (.ok rec, { blobs := st.blobs ++ [env.fresh_path],
                      records := st.records ++ [rec] }) ∧
        rec.mime_type = "application/octet-stream".data) ∧
      metaDict (get_file_metadata env.mime env.digest env.stored_size) =
        [("mime_type".data, .str "application/octet-stream".data),
         ("file_size".data, .int env.stored_size),
         ("hash".data, .vnone),
         ("error".data, .str err)] := by
    intro err hmeta
    constructor
    · refine ⟨(process_file (mkRecord env filename uploaded_by v)
          env.docOutcome env.audioOutcome).1,
        upload_file_ok env filename size uploaded_by st v hval, ?_⟩
      have hfr := (process_file_frame (mkRecord env filename uploaded_by v)
        env.docOutcome env.audioOutcome).2.2.2.2.1
      rw [hfr]
      show (get_file_metadata env.mime env.digest env.stored_size).mime_type = _
      rw [hmeta]
    · rw [hmeta]
      rfl
  constructor
  · intro m e hmime hdig
    exact hrec e (by rw [hmime, hdig]; rfl)
  · intro e' hmime
    exact hrec e' (by rw [hmime]; rfl)

/-- Concrete environment exercising the second branch of the amended C4:
the MIME sniffer itself raises. -/
def c4MimeEnv : UploadEnv :=
  { sampleEnv with mime := .error "magic failed".data }

/-- Witness for the amended C4 at two concrete uploads: under a raising
digest (MIME ok) and under a raising MIME sniffer, the record is
persisted with the generic binary MIME type. -/
theorem claim_c4_amended_digest_degrades_witness :
    (upload_file c4Env "a.txt".data (some 3) "u1".data ⟨[], []⟩).2.records.map
      FileRecord.mime_type = ["application/octet-stream".data] ∧
    (upload_file c4MimeEnv "a.txt".data (some 3) "u1".data ⟨[], []⟩).2.records.map
      FileRecord.mime_type = ["application/octet-stream".data] := by
  constructor
  · obtain ⟨⟨rec, h1, h2⟩, h3⟩ := (claim_c4_amended_digest_degrades c4Env
      "a.txt".data (some 3) "u1".data ⟨[], []⟩
      ⟨"a.txt".data, "document".data, ".txt".data⟩ rfl).1
      "text/plain".data "disk read failed".data rfl rfl
    rw [h1]
    simp [h2]
  · obtain ⟨⟨rec, h1, h2⟩, h3⟩ := (claim_c4_amended_digest_degrades c4MimeEnv
      "a.txt".data (some 3) "u1".data ⟨[], []⟩
      ⟨"a.txt".data, "document".data, ".txt".data⟩ rfl).2
      "magic failed".data rfl
    rw [h1]
    simp [h2]

-- C5 -------------------------------------------------------------------------

/-- C5: reconciliation never deletes the blob at the path of any persisted
record — whatever that record's processing status, `failed` included (the
statement quantifies over records of arbitrary status) — and every blob
it removes is referenced by no record. -/
theorem claim_c5_cleanup_preserves_referenced (st : Store) :
    (∀ r ∈ st.records, r.file_path ∈ st.blobs →
      r.file_path ∈ (cleanup_orphaned_files st).1.blobs) ∧
    (∀ p ∈ st.blobs, p ∉ (cleanup_orphaned_files st).1.blobs →
      ∀ r ∈ st.records, r.file_path ≠ p) := by
  constructor
  · intro r hr hb
    unfold cleanup_orphaned_files
    rw [List.mem_filter]
    refine ⟨hb, ?_⟩
    simp only [decide_eq_true_eq]
    exact List.mem_map.mpr ⟨r, hr, rfl⟩
  · intro p hp hrem r hr hcontra
    apply hrem
    unfold cleanup_orphaned_files
    rw [List.mem_filter]
    refine ⟨hp, ?_⟩
    simp only [decide_eq_true_eq]
    exact List.mem_map.mpr ⟨r, hr, hcontra⟩

/-- A persisted record in `failed` state, for the C5 witness. -/
def c5Rec : FileRecord :=
  { filename := "a.pdf".data
    original_filename := "a.pdf".data
    file_path := "uploads/a.pdf".data
    file_size := 1
    mime_type := "application/pdf".data
    file_type := "document".data
    uploaded_by := "u1".data
    metadata := []
    processing_status := statusFailed
    extracted_text := none }

/-- A store holding the failed record's blob plus one orphan. -/
def c5Store : Store :=
  ⟨["uploads/a.pdf".data, "uploads/orphan.bin".data], [c5Rec]⟩

/-- Witness for C5: the blob of a `failed` record survives a concrete
reconciliation run. -/
theorem claim_c5_cleanup_preserves_referenced_witness :
    c5Rec.processing_status = statusFailed ∧
    c5Rec.file_path ∈ (cleanup_orphaned_files c5Store).1.blobs := by
  refine ⟨rfl, ?_⟩
  exact (claim_c5_cleanup_preserves_referenced c5Store).1 c5Rec
    (by decide) (by decide)

-- C6 -------------------------------------------------------------------------

/-- An image record in `pending` state, for the C6 counterexample. -/
def c6Rec : FileRecord :=
  { filename := "img.png".data
    original_filename := "img.png".data
    file_path := "uploads/img.png".data
    file_size := 4
    mime_type := "image/png".data
    file_type := "image".data
    uploaded_by := "u1".data
    metadata := []
    processing_status := statusPending
    extracted_text := none }

/--
Counterexample to C6 as stated: C6 claims an image record moves directly
from `pending` to `completed` "without any intermediate state".  But
`process_file` (file_service.py lines 171-173) sets and commits
`processing_status = "processing"` before it ever looks at the file
type, so the committed status sequence for this image record is
`processing` then `completed` — the intermediate `processing` state is
durably visible, not skipped.
-/
theorem claim_c6_counterexample :
    c6Rec.processing_status = statusPending ∧
    (process_file c6Rec (.ok none) (.ok [])).2 =
      [statusProcessing, statusCompleted] ∧
    (process_file c6Rec (.ok none) (.ok [])).2 ≠ [statusCompleted] := by
  refine ⟨rfl, rfl, by decide⟩

/-- C6 (amended): for every record whose category is neither document nor
audio, no extraction is attempted — the result does not depend on the
outcomes of the extraction and audio calls — the record's fields other
than the status (metadata, extractedText included) are untouched, and the
record moves from `pending` through the committed intermediate
`processing` state to `completed`. -/
theorem claim_c6_amended_no_extraction (rec : FileRecord)
    (d d' : Except Str (Option Str)) (a a' : Except Str Dict)
    (hd : rec.file_type ≠ "document".data)
    (ha : rec.file_type ≠ "audio".data) :
    process_file rec d a = process_file rec d' a' ∧
    (process_file rec d a).1 = { rec with processing_status := statusCompleted } ∧
    (process_file rec d a).2 = [statusProcessing, statusCompleted] := by
  refine ⟨?_, ?_, ?_⟩ <;> simp [process_file, hd, ha]

/-- Witness for the amended C6: the concrete image record ends
`completed`, untouched apart from its status, whatever the (unused)
extraction outcomes. -/
theorem claim_c6_amended_no_extraction_witness :
    process_file c6Rec (.ok none) (.ok []) =
      process_file c6Rec (.error "boom".data) (.error "boom".data) ∧
    (process_file c6Rec (.ok none) (.ok [])).1 =
      { c6Rec with processing_status := statusCompleted } := by
  have h := claim_c6_amended_no_extraction c6Rec (.ok none)
    (.error "boom".data) (.ok []) (.error "boom".data) (by decide) (by decide)
  exact ⟨h.1, h.2.1⟩

-- C9 -------------------------------------------------------------------------

/-- The dict of keys `process_file` writes into the record's metadata on
each of its paths: the audio metadata on a successful audio call, the
`processing_error` entry on any raise, nothing otherwise. -/
def process_file_written (rec : FileRecord) (dO : Except Str (Option Str))
    (aO : Except Str Dict) : Dict :=
  if rec.file_type = "document".data then
    match dO with
    | .error e => [("processing_error".data, .str e)]
    | .ok _ => []
  else if rec.file_type = "audio".data then
    match aO with
    | .error e => [("processing_error".data, .str e)]
    | .ok m => m
  else []

/-- C9: every metadata mutation performed by `process_file` is a merge:
the new metadata equals `{**old, **written}` for the written dict of that
path, so every key present before and absent from the written keys keeps
its value; the mapping is never replaced wholesale. -/
theorem claim_c9_metadata_merge (rec : FileRecord)
    (dO : Except Str (Option Str)) (aO : Except Str Dict) :
    (process_file rec dO aO).1.metadata =
      dictMerge rec.metadata (process_file_written rec dO aO) ∧
    ∀ k : Str, dictHasKey (process_file_written rec dO aO) k = false →
      dictLookup (process_file rec dO aO).1.metadata k =
        dictLookup rec.metadata k := by
  have hm : (process_file rec dO aO).1.metadata =
      dictMerge rec.metadata (process_file_written rec dO aO) := by
    rw [process_file_metadata]
    unfold process_file_written
    by_cases h1 : rec.file_type = "document".data
    · cases dO with
      | error e => simp [h1]
      | ok t => simp [h1, dictMerge]
    · by_cases h2 : rec.file_type = "audio".data
      · cases aO with
        | error e => simp [h1, h2]
        | ok ma => simp [h1, h2]
      · simp [h1, h2, dictMerge]
  exact ⟨hm, fun k hk => by rw [hm]; exact dictMerge_lookup _ _ _ hk⟩

/-- An audio record carrying prior metadata, for the C9 witness. -/
def c9Rec : FileRecord :=
  { filename := "talk.mp3".data
    original_filename := "talk.mp3".data
    file_path := "uploads/talk.mp3".data
    file_size := 9
    mime_type := "audio/mpeg".data
    file_type := "audio".data
    uploaded_by := "u1".data
    metadata := [("mime_type".data, .str "audio/mpeg".data)]
    processing_status := statusPending
    extracted_text := none }

/-- Witness for C9: merging audio metadata `{duration: 9}` into a record
leaves the pre-existing `mime_type` entry untouched. -/
theorem claim_c9_metadata_merge_witness :
    dictLookup (process_file c9Rec (.ok none)
        (.ok [("duration".data, .int 9)])).1.metadata "mime_type".data =
      dictLookup c9Rec.metadata "mime_type".data := by
  exact (claim_c9_metadata_merge c9Rec (.ok none)
    (.ok [("duration".data, .int 9)])).2 "mime_type".data (by decide)

-- C7 -------------------------------------------------------------------------

/--
Counterexample to C7 as stated.  C7 says each row's cells are joined "by
the delimiter detected from a leading sample".  For the semicolon file
`a;b\n1;2` the sniffer detects `;` and `csv.reader` yields the rows
`[[a, b], [1, 2]]`; but `_extract_from_csv` joins cells with the fixed
literal `", "` (text_extraction.py lines 114 and 117) — the detected
delimiter is only ever passed to the reader.  The output contains no
semicolon at all.
-/
theorem claim_c7_counterexample :
    extract_from_csv [["a".data, "b".data], ["1".data, "2".data]] =
      "Headers: a, b\nRow 1: 1, 2".data ∧
    extract_from_csv [["a".data, "b".data], ["1".data, "2".data]] ≠
      "Headers: a; b\nRow 1: 1; 2".data ∧
    ';' ∉ extract_from_csv [["a".data, "b".data], ["1".data, "2".data]] := by
  refine ⟨rfl, by decide, by decide⟩

theorem csvLines_length (rows : List (List Str)) : ∀ n : Nat,
    (csvLines n rows).length = rows.length := by
  induction rows with
  | nil => intro n; rfl
  | cons r rs ih =>
    intro n
    simp only [csvLines, List.length_cons, ih (n + 1)]

/-- C7 (amended): CSV extraction renders one line per row — `Headers: …`
for the first row, `Row N: …` for row N — with the cells always joined by
the fixed separator `", "`, whatever delimiter was detected (the
delimiter only drives the parsing of the content into rows); the lines
are newline-joined and the cumulative cap is applied while accumulating.
On the example rows of `a,b\n1,2\n3,4` the output is exactly
`Headers: a, b` / `Row 1: 1, 2` / `Row 2: 3, 4`. -/
theorem claim_c7_amended_fixed_separator :
    (∀ rows : List (List Str),
      extract_from_csv rows = pyTruncate (csvUnbounded rows) max_text_length) ∧
    (∀ (rows : List (List Str)) (n : Nat),
      (csvLines n rows).length = rows.length) ∧
    extract_from_csv
        [["a".data, "b".data], ["1".data, "2".data], ["3".data, "4".data]] =
      "Headers: a, b\nRow 1: 1, 2\nRow 2: 3, 4".data := by
  exact ⟨extract_from_csv_eq, csvLines_length, rfl⟩

-- C8 support lemmas ----------------------------------------------------------

/-- A character with no role in any rule of `_clean_markdown`. -/
def plainChar (c : Char) : Prop :=
  c ≠ '#' ∧ c ≠ btick ∧ c ≠ '*' ∧ c ≠ '[' ∧ c ≠ ']' ∧ c ≠ '(' ∧ c ≠ ')' ∧ c ≠ '\n'

/-- A line of characters with no role in any rule of `_clean_markdown`. -/
def plainLine (l : Str) : Prop := ∀ c ∈ l, plainChar c

instance (c : Char) : Decidable (plainChar c) := by
  unfold plainChar
  infer_instance

instance (l : Str) : Decidable (plainLine l) := by
  unfold plainLine
  infer_instance

theorem isSubstr_star_false {l : Str} (h : '*' ∉ l) :
    isSubstr ['*', '*'] l = false := by
  induction l with
  | nil => rfl
  | cons c rest ih =>
    have hc : c ≠ '*' := fun hcc => h (hcc ▸ List.mem_cons_self c rest)
    have h2 : '*' ∉ rest := fun hm => h (List.mem_cons_of_mem c hm)
    have hsw : pyStartswith ['*', '*'] (c :: rest) = false := by
      have hc' : ('*' : Char) ≠ c := fun he => hc he.symm
      simp [pyStartswith, hc']
    rw [isSubstr, hsw, ih h2]
    rfl

theorem dropWhile_eq_self_of_none {p : Char → Bool} {l : Str}
    (h : ∀ c ∈ l, p c = false) : l.dropWhile p = l := by
  cases l with
  | nil => rfl
  | cons c rest =>
    rw [List.dropWhile_cons, h c (List.mem_cons_self c rest)]
    simp

theorem pyStrip_plain {l : Str} (h : ∀ c ∈ l, isPySpace c = false) :
    pyStrip l = l := by
  unfold pyStrip
  rw [dropWhile_eq_self_of_none h,
    dropWhile_eq_self_of_none (fun c hc => h c (List.mem_reverse.mp hc)),
    List.reverse_reverse]

theorem filter_replaceDoubleStar : ∀ l : Str,
    (replaceDoubleStar l).filter (fun c => c ≠ '*') =
      l.filter (fun c => c ≠ '*') := by
  have key : ∀ (n : Nat) (l : Str), l.length ≤ n →
      (replaceDoubleStar l).filter (fun c => c ≠ '*') =
        l.filter (fun c => c ≠ '*') := by
    intro n
    induction n with
    | zero =>
      intro l hl
      rw [Nat.le_zero, List.length_eq_zero] at hl
      subst hl
      rfl
    | succ n ih =>
      intro l hl
      rcases l with _ | ⟨c, l2⟩
      · rfl
      rcases l2 with _ | ⟨c2, rest⟩
      · rfl
      have e : replaceDoubleStar (c :: c2 :: rest) =
          if c = '*' ∧ c2 = '*' then replaceDoubleStar rest
          else c :: replaceDoubleStar (c2 :: rest) := by
        rw [replaceDoubleStar]
      rw [e]
      by_cases hc : c = '*' ∧ c2 = '*'
      · rw [if_pos hc]
        obtain ⟨h1, h2⟩ := hc
        subst h1
        subst h2
        rw [ih rest (by simp only [List.length_cons] at hl; omega)]
        simp
      · rw [if_neg hc]
        rw [List.filter_cons, List.filter_cons,
          ih (c2 :: rest) (by simp only [List.length_cons] at hl ⊢; omega)]
  intro l
  exact key l.length l le_rfl

theorem takeWhile_append_stop {p : Char → Bool} (t : Str) {x : Char} (r : Str)
    (ht : ∀ c ∈ t, p c = true) (hx : p x = false) :
    (t ++ x :: r).takeWhile p = t ∧ (t ++ x :: r).dropWhile p = x :: r := by
  induction t with
  | nil =>
    rw [List.nil_append]
    constructor
    · rw [List.takeWhile_cons, hx]
      simp
    · rw [List.dropWhile_cons, hx]
      simp
  | cons c t ih =>
    have hc : p c = true := ht c (List.mem_cons_self c t)
    obtain ⟨ih1, ih2⟩ := ih (fun d hd => ht d (List.mem_cons_of_mem c hd))
    constructor
    · rw [List.cons_append, List.takeWhile_cons, hc]
      simp [ih1]
    · rw [List.cons_append, List.dropWhile_cons, hc]
      simp [ih2]

theorem parseLink_build (t u b : Str) (ht : t ≠ []) (hu : u ≠ [])
    (htc : ∀ c ∈ t, c ≠ ']') (huc : ∀ c ∈ u, c ≠ ')') :
    parseLink (t ++ ']' :: '(' :: (u ++ ')' :: b)) = some (t, b) := by
  obtain ⟨hs1, hs2⟩ := takeWhile_append_stop (p := fun c => decide (c ≠ ']'))
    t ('(' :: (u ++ ')' :: b))
    (fun c hc => by simpa using htc c hc) (x := ']') (by simp)
  obtain ⟨hs3, hs4⟩ := takeWhile_append_stop (p := fun c => decide (c ≠ ')'))
    u b (fun c hc => by simpa using huc c hc) (x := ')') (by simp)
  unfold parseLink
  rw [hs1, hs2]
  dsimp only
  rw [hs3, hs4]
  simp [ht, hu]

theorem linkSub_cons_other {c : Char} (rest : Str) (hc : ¬ c = '[') :
    linkSub (c :: rest) = c :: linkSub rest := by
  rw [linkSub, if_neg hc]

theorem linkSub_cons_match {rest t after : Str}
    (h : parseLink rest = some (t, after)) :
    linkSub ('[' :: rest) = t ++ linkSub after := by
  rw [linkSub, if_pos rfl]
  split
  next t' after' heq =>
    rw [h] at heq
    simp only [Option.some.injEq, Prod.mk.injEq] at heq
    obtain ⟨h1, h2⟩ := heq
    rw [h1, h2]
  next heq =>
    rw [h] at heq
    cases heq

theorem linkSub_no_bracket {l : Str} (h : '[' ∉ l) : linkSub l = l := by
  induction l with
  | nil => rw [linkSub]
  | cons c rest ih =>
    have hc : ¬ c = '[' := fun he => h (he ▸ List.mem_cons_self c rest)
    have h2 : '[' ∉ rest := fun hm => h (List.mem_cons_of_mem c hm)
    rw [linkSub_cons_other rest hc, ih h2]

theorem linkSub_decomp (a t u b : Str) (hat : '[' ∉ a) (ht : t ≠ []) (hu : u ≠ [])
    (htc : ∀ c ∈ t, c ≠ ']') (huc : ∀ c ∈ u, c ≠ ')') (hb : '[' ∉ b) :
    linkSub (a ++ '[' :: (t ++ ']' :: '(' :: (u ++ ')' :: b))) = a ++ (t ++ b) := by
  induction a with
  | nil =>
    rw [List.nil_append, List.nil_append,
      linkSub_cons_match (parseLink_build t u b ht hu htc huc),
      linkSub_no_bracket hb]
  | cons c a ih =>
    have hc : ¬ c = '[' := fun he => hat (he ▸ List.mem_cons_self c a)
    rw [List.cons_append, linkSub_cons_other _ hc,
      ih (fun hm => hat (List.mem_cons_of_mem c hm)), List.cons_append]

theorem splitNl_no_newline {l : Str} (h : '\n' ∉ l) : splitNl l = [l] := by
  induction l with
  | nil => rfl
  | cons c rest ih =>
    have hc : ¬ c = '\n' := fun he => h (he ▸ List.mem_cons_self c rest)
    have h2 : '\n' ∉ rest := fun hm => h (List.mem_cons_of_mem c hm)
    rw [splitNl, if_neg hc, ih h2]

theorem splitNl_append_newline {l : Str} (r : Str) (hl : '\n' ∉ l) :
    splitNl (l ++ '\n' :: r) = l :: splitNl r := by
  induction l with
  | nil =>
    rw [List.nil_append, splitNl, if_pos rfl]
  | cons c rest ih =>
    have hc : ¬ c = '\n' := fun he => hl (he ▸ List.mem_cons_self c rest)
    rw [List.cons_append, splitNl, if_neg hc,
      ih (fun hm => hl (List.mem_cons_of_mem c hm))]

theorem splitNl_join {ls : List Str} (hne : ls ≠ [])
    (h : ∀ l ∈ ls, '\n' ∉ l) : splitNl (pyJoin nl ls) = ls := by
  induction ls with
  | nil => exact absurd rfl hne
  | cons l rest ih =>
    cases rest with
    | nil => exact splitNl_no_newline (h l (List.mem_cons_self _ _))
    | cons l2 rest2 =>
      have hjoin : pyJoin nl (l :: l2 :: rest2) =
          l ++ '\n' :: pyJoin nl (l2 :: rest2) := by
        show l ++ nl ++ pyJoin nl (l2 :: rest2) = _
        simp [nl]
      have hrest := ih (List.cons_ne_nil l2 rest2)
        (fun x hx => h x (List.mem_cons_of_mem _ hx))
      rw [hjoin, splitNl_append_newline _ (h l (List.mem_cons_self _ _)), hrest]

-- Computation of cleanLineOpt on each family of lines ------------------------

theorem plainLine_no_newline {l : Str} (h : plainLine l) : '\n' ∉ l :=
  fun hm => (h '\n' hm).2.2.2.2.2.2.2 rfl

theorem pyStartswith_hash_false {l : Str}
    (h : ∀ c ∈ l, c ≠ '#') : pyStartswith ['#'] l = false := by
  cases l with
  | nil => rfl
  | cons c rest =>
    have hc : ('#' : Char) ≠ c := fun he => h c (List.mem_cons_self c rest) he.symm
    simp [pyStartswith, hc]

theorem pyStartswith_fence_false {l : Str}
    (h : ∀ c ∈ l, c ≠ btick) : pyStartswith "```".data l = false := by
  have e : "```".data = btick :: btick :: btick :: [] := rfl
  rw [e]
  cases l with
  | nil => rfl
  | cons c rest =>
    have hc : btick ≠ c := fun he => h c (List.mem_cons_self c rest) he.symm
    simp [pyStartswith, hc]

/-- On a fully plain line, every rule falls through and the line is kept
verbatim. -/
theorem cleanLineOpt_plain {l : Str} (h : plainLine l) : cleanLineOpt l = some l := by
  have h1 : pyStartswith ['#'] l = false :=
    pyStartswith_hash_false (fun c hc => (h c hc).1)
  have h2 : pyStartswith "```".data l = false :=
    pyStartswith_fence_false (fun c hc => (h c hc).2.1)
  have h3 : btick ∉ l := fun hm => (h btick hm).2.1 rfl
  have h5 : '*' ∉ l := fun hm => (h '*' hm).2.2.1 rfl
  have h4 : isSubstr ['*', '*'] l = false := isSubstr_star_false h5
  have h6 : '[' ∉ l := fun hm => (h '[' hm).2.2.2.1 rfl
  unfold cleanLineOpt
  rw [h1, h2]
  simp only [Bool.false_eq_true, if_false]
  rw [if_neg h3, if_neg (by simp [h4, h5]), if_neg (fun hc => h6 hc.1)]

theorem cleanLineOpt_heading {t : Str} (hp : plainLine t)
    (hs : ∀ c ∈ t, isPySpace c = false) :
    cleanLineOpt ('#' :: t) = some t := by
  unfold cleanLineOpt
  rw [if_pos (show pyStartswith ['#'] ('#' :: t) = true from by simp [pyStartswith])]
  have hdrop : ('#' :: t).dropWhile (fun c => decide (c = '#')) = t := by
    rw [List.dropWhile_cons]
    rw [if_pos (by simp)]
    exact dropWhile_eq_self_of_none (fun c hc => by simpa using (hp c hc).1)
  rw [hdrop, pyStrip_plain hs]

theorem cleanLineOpt_fence : cleanLineOpt "```".data = none := rfl

theorem cleanLineOpt_fence_chars :
    cleanLineOpt ['\x60', '\x60', '\x60'] = none := rfl

theorem cleanLineOpt_code {a t b : Str} (hpa : plainLine a) (hpt : plainLine t)
    (hpb : plainLine b) (hne : a ≠ []) :
    cleanLineOpt (a ++ btick :: (t ++ btick :: b)) = some (a ++ (t ++ b)) := by
  obtain ⟨c, a', rfl⟩ : ∃ c a', a = c :: a' := by
    cases a with
    | nil => exact absurd rfl hne
    | cons c a' => exact ⟨c, a', rfl⟩
  have hpc := hpa c (List.mem_cons_self c a')
  have hpa' : plainLine a' := fun x hx => hpa x (List.mem_cons_of_mem c hx)
  rw [List.cons_append]
  unfold cleanLineOpt
  have h1 : pyStartswith ['#'] (c :: (a' ++ btick :: (t ++ btick :: b))) = false := by
    have hcc : ('#' : Char) ≠ c := fun he => hpc.1 he.symm
    simp [pyStartswith, hcc]
  have h2 : pyStartswith "```".data (c :: (a' ++ btick :: (t ++ btick :: b))) = false := by
    have e : "```".data = btick :: btick :: btick :: [] := rfl
    have hcc : btick ≠ c := fun he => hpc.2.1 he.symm
    rw [e]
    simp [pyStartswith, hcc]
  have h3 : btick ∈ c :: (a' ++ btick :: (t ++ btick :: b)) := by simp
  rw [h1, h2]
  simp only [Bool.false_eq_true, if_false]
  rw [if_pos h3]
  congr 1
  have hf : ∀ l : Str, plainLine l → l.filter (fun x => decide (x ≠ btick)) = l :=
    fun l hl => List.filter_eq_self.mpr (fun x hx => by simpa using (hl x hx).2.1)
  simp only [List.filter_cons, List.filter_append, hf a' hpa', hf t hpt, hf b hpb]
  simp [hpc.2.1]

theorem cleanLineOpt_emph {a t b : Str} (hpa : plainLine a) (hpt : plainLine t)
    (hpb : plainLine b) (hne : a ≠ []) :
    cleanLineOpt (a ++ '*' :: '*' :: (t ++ '*' :: '*' :: b)) =
      some (a ++ (t ++ b)) := by
  obtain ⟨c, a', rfl⟩ : ∃ c a', a = c :: a' := by
    cases a with
    | nil => exact absurd rfl hne
    | cons c a' => exact ⟨c, a', rfl⟩
  have hpc := hpa c (List.mem_cons_self c a')
  have hpa' : plainLine a' := fun x hx => hpa x (List.mem_cons_of_mem c hx)
  rw [List.cons_append]
  unfold cleanLineOpt
  have h1 : pyStartswith ['#']
      (c :: (a' ++ '*' :: '*' :: (t ++ '*' :: '*' :: b))) = false := by
    have hcc : ('#' : Char) ≠ c := fun he => hpc.1 he.symm
    simp [pyStartswith, hcc]
  have h2 : pyStartswith "```".data
      (c :: (a' ++ '*' :: '*' :: (t ++ '*' :: '*' :: b))) = false := by
    have e : "```".data = btick :: btick :: btick :: [] := rfl
    have hcc : btick ≠ c := fun he => hpc.2.1 he.symm
    rw [e]
    simp [pyStartswith, hcc]
  have h3 : btick ∉ c :: (a' ++ '*' :: '*' :: (t ++ '*' :: '*' :: b)) := by
    simp only [List.mem_cons, List.mem_append]
    rintro (h | h | h | h | h | h | h | h)
    · exact hpc.2.1 h.symm
    · exact (hpa' _ h).2.1 rfl
    · exact absurd h (by decide)
    · exact absurd h (by decide)
    · exact (hpt _ h).2.1 rfl
    · exact absurd h (by decide)
    · exact absurd h (by decide)
    · exact (hpb _ h).2.1 rfl
  have hstar : '*' ∈ c :: (a' ++ '*' :: '*' :: (t ++ '*' :: '*' :: b)) := by simp
  rw [h1, h2]
  simp only [Bool.false_eq_true, if_false]
  rw [if_neg h3, if_pos (Or.inr hstar)]
  congr 1
  rw [filter_replaceDoubleStar]
  have hf : ∀ l : Str, plainLine l → l.filter (fun x => decide (x ≠ '*')) = l :=
    fun l hl => List.filter_eq_self.mpr (fun x hx => by simpa using (hl x hx).2.2.1)
  simp only [List.filter_cons, List.filter_append, hf a' hpa', hf t hpt, hf b hpb]
  simp [hpc.2.2.1]

theorem cleanLineOpt_link {a t u b : Str} (hpa : plainLine a) (hpt : plainLine t)
    (hpu : plainLine u) (hpb : plainLine b) (hne : a ≠ []) (ht : t ≠ [])
    (hu : u ≠ []) :
    cleanLineOpt (a ++ '[' :: (t ++ ']' :: '(' :: (u ++ ')' :: b))) =
      some (a ++ (t ++ b)) := by
  have hdecomp := linkSub_decomp a t u b
    (fun hm => (hpa _ hm).2.2.2.1 rfl) ht hu
    (fun x hx => (hpt x hx).2.2.2.2.1)
    (fun x hx => (hpu x hx).2.2.2.2.2.2.1)
    (fun hm => (hpb _ hm).2.2.2.1 rfl)
  obtain ⟨c, a', rfl⟩ : ∃ c a', a = c :: a' := by
    cases a with
    | nil => exact absurd rfl hne
    | cons c a' => exact ⟨c, a', rfl⟩
  have hpc := hpa c (List.mem_cons_self c a')
  have hpa' : plainLine a' := fun x hx => hpa x (List.mem_cons_of_mem c hx)
  rw [List.cons_append] at hdecomp ⊢
  unfold cleanLineOpt
  have h1 : pyStartswith ['#']
      (c :: (a' ++ '[' :: (t ++ ']' :: '(' :: (u ++ ')' :: b)))) = false := by
    have hcc : ('#' : Char) ≠ c := fun he => hpc.1 he.symm
    simp [pyStartswith, hcc]
  have h2 : pyStartswith "```".data
      (c :: (a' ++ '[' :: (t ++ ']' :: '(' :: (u ++ ')' :: b)))) = false := by
    have e : "```".data = btick :: btick :: btick :: [] := rfl
    have hcc : btick ≠ c := fun he => hpc.2.1 he.symm
    rw [e]
    simp [pyStartswith, hcc]
  have h3 : btick ∉ c :: (a' ++ '[' :: (t ++ ']' :: '(' :: (u ++ ')' :: b))) := by
    simp only [List.mem_cons, List.mem_append]
    rintro (h | h | h | h | h | h | h | h | h)
    · exact hpc.2.1 h.symm
    · exact (hpa' _ h).2.1 rfl
    · exact absurd h (by decide)
    · exact (hpt _ h).2.1 rfl
    · exact absurd h (by decide)
    · exact absurd h (by decide)
    · exact (hpu _ h).2.1 rfl
    · exact absurd h (by decide)
    · exact (hpb _ h).2.1 rfl
  have h4 : '*' ∉ c :: (a' ++ '[' :: (t ++ ']' :: '(' :: (u ++ ')' :: b))) := by
    simp only [List.mem_cons, List.mem_append]
    rintro (h | h | h | h | h | h | h | h | h)
    · exact hpc.2.2.1 h.symm
    · exact (hpa' _ h).2.2.1 rfl
    · exact absurd h (by decide)
    · exact (hpt _ h).2.2.1 rfl
    · exact absurd h (by decide)
    · exact absurd h (by decide)
    · exact (hpu _ h).2.2.1 rfl
    · exact absurd h (by decide)
    · exact (hpb _ h).2.2.1 rfl
  have h5 : ¬(isSubstr ['*', '*']
      (c :: (a' ++ '[' :: (t ++ ']' :: '(' :: (u ++ ')' :: b)))) = true ∨
      '*' ∈ c :: (a' ++ '[' :: (t ++ ']' :: '(' :: (u ++ ')' :: b)))) := by
    rintro (h | h)
    · rw [isSubstr_star_false h4] at h
      exact absurd h (by simp)
    · exact h4 h
  have h6 : '[' ∈ c :: (a' ++ '[' :: (t ++ ']' :: '(' :: (u ++ ')' :: b))) := by
    simp
  have h7 : ']' ∈ c :: (a' ++ '[' :: (t ++ ']' :: '(' :: (u ++ ')' :: b))) := by
    simp
  rw [h1, h2]
  simp only [Bool.false_eq_true, if_false]
  rw [if_neg h3, if_neg h5, if_pos ⟨h6, h7⟩, hdecomp]

theorem clean_markdown_single {l s : Str} (hnl : '\n' ∉ l)
    (hc : cleanLineOpt l = some s) : clean_markdown l = s := by
  unfold clean_markdown
  rw [splitNl_no_newline hnl]
  simp only [List.filterMap_cons, hc, List.filterMap_nil]
  rfl

theorem filterMap_plain {body : List Str} (h : ∀ l ∈ body, plainLine l) :
    body.filterMap cleanLineOpt = body := by
  induction body with
  | nil => rfl
  | cons l rest ih =>
    simp only [List.filterMap_cons, cleanLineOpt_plain (h l (List.mem_cons_self _ _)),
      ih (fun x hx => h x (List.mem_cons_of_mem _ hx))]

-- C8 -------------------------------------------------------------------------

/--
Counterexample to C8 as stated.  C8 claims fenced code blocks are dropped
"in their entirety (every line of the block, not only the fence lines)".
`_clean_markdown` (text_extraction.py lines 152-154) only skips lines
that themselves start with three backticks; the lines between the fences
are processed like ordinary lines and kept.  For the three-line block
```` ``` / secret code / ``` ```` the output is `secret code`, not the
empty string the claim requires.
-/
theorem claim_c8_counterexample :
    clean_markdown "```\nsecret code\n```".data = "secret code".data ∧
    "secret code".data ≠ ([] : Str) := by
  refine ⟨rfl, by decide⟩

/-- C8 (amended): `_clean_markdown` works line by line, each line
transformed by the first matching rule: heading markers are stripped
(with surrounding whitespace); only the fence lines of a fenced code
block are dropped, while every line between the fences is retained
(processed like any other line); inline code backticks are removed;
emphasis asterisks are removed; and `[text](url)` is replaced by `text`.
The quantified lines are built from characters with no role in the other
rules, isolating each rule. -/
theorem claim_c8_amended_markdown_rules :
    (∀ t : Str, plainLine t → (∀ c ∈ t, isPySpace c = false) →
      clean_markdown ('#' :: t) = t) ∧
    (∀ body : List Str, (∀ l ∈ body, plainLine l) →
      clean_markdown (pyJoin nl ("```".data :: (body ++ ["```".data]))) =
        pyJoin nl body) ∧
    (∀ a t b : Str, plainLine a → plainLine t → plainLine b → a ≠ [] →
      clean_markdown (a ++ btick :: (t ++ btick :: b)) = a ++ (t ++ b)) ∧
    (∀ a t b : Str, plainLine a → plainLine t → plainLine b → a ≠ [] →
      clean_markdown (a ++ '*' :: '*' :: (t ++ '*' :: '*' :: b)) =
        a ++ (t ++ b)) ∧
    (∀ a t u b : Str, plainLine a → plainLine t → plainLine u → plainLine b →
      a ≠ [] → t ≠ [] → u ≠ [] →
      clean_markdown (a ++ '[' :: (t ++ ']' :: '(' :: (u ++ ')' :: b))) =
        a ++ (t ++ b)) := by
  refine ⟨?_, ?_, ?_, ?_, ?_⟩
  · intro t hp hs
    refine clean_markdown_single ?_ (cleanLineOpt_heading hp hs)
    intro hm
    rcases List.mem_cons.mp hm with h | h
    · exact absurd h (by decide)
    · exact plainLine_no_newline hp h
  · intro body hbody
    have hnn : ∀ l ∈ "```".data :: (body ++ ["```".data]), '\n' ∉ l := by
      intro l hl
      rcases List.mem_cons.mp hl with rfl | h
      · decide
      · rcases List.mem_append.mp h with h2 | h2
        · exact plainLine_no_newline (hbody l h2)
        · rcases List.mem_cons.mp h2 with rfl | h3
          · decide
          · exact absurd h3 (List.not_mem_nil l)
    unfold clean_markdown
    rw [splitNl_join (List.cons_ne_nil _ _) hnn]
    simp only [List.filterMap_cons, cleanLineOpt_fence, cleanLineOpt_fence_chars,
      List.filterMap_append, filterMap_plain hbody, List.filterMap_nil,
      List.append_nil]
  · intro a t b hpa hpt hpb hne
    refine clean_markdown_single ?_ (cleanLineOpt_code hpa hpt hpb hne)
    intro hm
    simp only [List.mem_append, List.mem_cons] at hm
    rcases hm with h | h | h | h | h
    · exact plainLine_no_newline hpa h
    · exact absurd h (by decide)
    · exact plainLine_no_newline hpt h
    · exact absurd h (by decide)
    · exact plainLine_no_newline hpb h
  · intro a t b hpa hpt hpb hne
    refine clean_markdown_single ?_ (cleanLineOpt_emph hpa hpt hpb hne)
    intro hm
    simp only [List.mem_append, List.mem_cons] at hm
    rcases hm with h | h | h | h | h | h | h
    · exact plainLine_no_newline hpa h
    · exact absurd h (by decide)
    · exact absurd h (by decide)
    · exact plainLine_no_newline hpt h
    · exact absurd h (by decide)
    · exact absurd h (by decide)
    · exact plainLine_no_newline hpb h
  · intro a t u b hpa hpt hpu hpb hne ht hu
    refine clean_markdown_single ?_ (cleanLineOpt_link hpa hpt hpu hpb hne ht hu)
    intro hm
    simp only [List.mem_append, List.mem_cons] at hm
    rcases hm with h | h | h | h | h | h | h | h
    · exact plainLine_no_newline hpa h
    · exact absurd h (by decide)
    · exact plainLine_no_newline hpt h
    · exact absurd h (by decide)
    · exact absurd h (by decide)
    · exact plainLine_no_newline hpu h
    · exact absurd h (by decide)
    · exact plainLine_no_newline hpb h

/-- Witness for the amended C8 at concrete lines: a heading is stripped, a
fenced block keeps its interior line, backticks, asterisks and a link are
cleaned. -/
theorem claim_c8_amended_markdown_rules_witness :
    clean_markdown ('#' :: "Title".data) = "Title".data ∧
    clean_markdown (pyJoin nl ("```".data :: (["kept".data] ++ ["```".data]))) =
      "kept".data ∧
    clean_markdown ("x ".data ++ btick :: ("y".data ++ btick :: " z".data)) =
      "x ".data ++ ("y".data ++ " z".data) ∧
    clean_markdown
        ("x ".data ++ '*' :: '*' :: ("y".data ++ '*' :: '*' :: " z".data)) =
      "x ".data ++ ("y".data ++ " z".data) ∧
    clean_markdown ("see ".data ++ '[' :: ("docs".data ++ ']' :: '(' ::
        ("http://x".data ++ ')' :: " now".data))) =
      "see ".data ++ ("docs".data ++ " now".data) := by
  obtain ⟨h1, h2, h3, h4, h5⟩ := claim_c8_amended_markdown_rules
  refine ⟨h1 "Title".data (by decide) (by decide), ?_,
    h3 "x ".data "y".data " z".data (by decide) (by decide) (by decide) (by decide),
    h4 "x ".data "y".data " z".data (by decide) (by decide) (by decide) (by decide),
    h5 "see ".data "docs".data "http://x".data " now".data (by decide) (by decide)
      (by decide) (by decide) (by decide) (by decide) (by decide)⟩
  exact (h2 ["kept".data] (by decide)).trans rfl
